import Mathlib

set_option maxRecDepth 4000

/-!
Shallow embedding of `tensorflow_datasets/core/features/text/text_encoder.py`:
the `Tokenizer` (regex-based splitting into homogeneous word / non-word runs,
with reserved-token handling) and the `TokenTextEncoder` (token/id codec with
MD5 OOV hash buckets), together with theorems about their behaviour.

The regex word-character class `\w` (compiled with `re.UNICODE`) is modelled
as an explicit classifier parameter `w : Char → Bool`; theorems quantify over
the classifier, and `isWordCharA` below is its ASCII fragment, used to
instantiate theorems at concrete inputs.
-/

/-- ASCII fragment of the Unicode word-character class `\w`:
letters, digits and the underscore. -/
def isWordCharA (c : Char) : Bool := c.isAlphanum || c == '_'

/-- Maximal runs of characters with equal classification under `w`: the
non-empty pieces produced by `re.split` with pattern `(\W+)` (capturing both
the word runs and the non-word runs), in left-to-right order. -/
def runs (w : Char → Bool) : List Char → List (List Char)
  | [] => []
  | [c] => [[c]]
  | c :: c2 :: cs =>
    match runs w (c2 :: cs) with
    | [] => [[c]]
    | r :: rs => if w c = w c2 then (c :: r) :: rs else [c] :: r :: rs

theorem runs_flatten (w : Char → Bool) : ∀ l : List Char, (runs w l).flatten = l
  | [] => rfl
  | [_] => rfl
  | c :: c2 :: cs => by
    have ih := runs_flatten w (c2 :: cs)
    simp only [runs]
    cases h : runs w (c2 :: cs) with
    | nil => rw [h] at ih; simp at ih
    | cons r rs =>
      rw [h] at ih
      by_cases hw : w c = w c2
      · simp only [if_pos hw, List.flatten_cons] at ih ⊢
        rw [List.cons_append, ih]
      · simp only [if_neg hw, List.flatten_cons] at ih ⊢
        rw [List.singleton_append, ih]

theorem runs_ne_nil (w : Char → Bool) :
    ∀ l : List Char, ∀ r ∈ runs w l, r ≠ []
  | [], _, hr => absurd hr (by simp [runs])
  | [c], r, hr => by
    simp only [runs, List.mem_singleton] at hr
    simp [hr]
  | c :: c2 :: cs, r, hr => by
    have ih := runs_ne_nil w (c2 :: cs)
    simp only [runs] at hr
    cases h : runs w (c2 :: cs) with
    | nil => rw [h] at hr; simp only [List.mem_singleton] at hr; simp [hr]
    | cons r2 rs =>
      rw [h] at hr
      dsimp only at hr
      by_cases hw : w c = w c2
      · rw [if_pos hw] at hr
        rcases List.mem_cons.mp hr with h1 | h1
        · simp [h1]
        · exact ih r (h ▸ List.mem_cons_of_mem r2 h1)
      · rw [if_neg hw] at hr
        rcases List.mem_cons.mp hr with h1 | h1
        · simp [h1]
        · exact ih r (h ▸ h1)

/-- A non-empty list all of whose characters are word characters forms a
single run. -/
theorem runs_of_all (w : Char → Bool) :
    ∀ l : List Char, l ≠ [] → (∀ c ∈ l, w c = true) → runs w l = [l]
  | [] => fun h _ => absurd rfl h
  | [_] => fun _ _ => rfl
  | c :: c2 :: cs => by
    intro _ hall
    have ih := runs_of_all w (c2 :: cs) (by simp)
      (fun c hc => hall c (List.mem_cons_of_mem _ hc))
    simp only [runs, ih]
    have hc : w c = true := hall c (List.mem_cons_self c _)
    have hc2 : w c2 = true := hall c2 (by simp)
    rw [if_pos (hc.trans hc2.symm)]

/-- Characters with a special meaning in Python regular expressions:
backslash, dot, caret, dollar sign, star, plus, question mark, the two curly
braces, the two square brackets, vertical bar and the two parentheses, listed
by code point. -/
def isRegexMeta (c : Char) : Bool :=
  c.toNat ∈ [92, 46, 94, 36, 42, 43, 63, 123, 125, 91, 93, 124, 40, 41]

/-- First reserved token (in list order) that matches at the head of `l`.
Models the regex alternation `(tok1|tok2|...)` attempting each alternative in
pattern order at the current position, for LITERAL alternatives: the source
interpolates the reserved tokens into the pattern without `re.escape`, so a
token containing regex metacharacters (`isRegexMeta`) is interpreted as regex
syntax there, which this literal model does not cover — theorems about
reserved tokens therefore assume the tokens are metacharacter-free, where the
unescaped interpolation and literal matching coincide.  Empty alternatives
are never taken (the alternation only makes progress on a non-empty
literal match). -/
def findMatch (ts : List (List Char)) (l : List Char) : Option (List Char) :=
  match ts with
  | [] => none
  | t :: rest => if t ≠ [] ∧ t.isPrefixOf l then some t else findMatch rest l

theorem findMatch_sound {ts : List (List Char)} {l m : List Char}
    (h : findMatch ts l = some m) : m ≠ [] ∧ m.isPrefixOf l := by
  induction ts with
  | nil => simp [findMatch] at h
  | cons t rest ih =>
    rw [findMatch] at h
    by_cases ht : t ≠ [] ∧ t.isPrefixOf l
    · rw [if_pos ht] at h
      cases h
      exact ht
    · rw [if_neg ht] at h
      exact ih h

theorem findMatch_single {r l : List Char} (hr : r ≠ []) (hp : r.isPrefixOf l) :
    findMatch [r] l = some r := by
  rw [findMatch, if_pos ⟨hr, hp⟩]

/-- Fuelled scanner behind `re.split` with pattern `(tok1|tok2|...)`:
scans `l` left to right, and at each position tries the reserved tokens in
list order; the output alternates the in-between pieces (possibly empty) with
the exact matches, exactly as `re.split` with one capturing group returns
them.  `acc` holds the current in-between piece, reversed.  The fuel only
bounds the recursion and is never exhausted when it starts above `l.length`. -/
def rsplitF (ts : List (List Char)) : Nat → List Char → List Char → List (List Char)
  | 0, acc, l => [acc.reverse ++ l]
  | _ + 1, acc, [] => [acc.reverse]
  | fuel + 1, acc, c :: cs =>
    match findMatch ts (c :: cs) with
    | some m => acc.reverse :: m :: rsplitF ts fuel [] ((c :: cs).drop m.length)
    | none => rsplitF ts fuel (c :: acc) cs

/-- `re.split(u"(%s)" % u"|".join(reserved_tokens), s)`: the pieces of `s`
between reserved-token matches, with the matches themselves interleaved.
Faithful to the source exactly for reserved tokens free of regex
metacharacters, the scope inherited from `findMatch`: the source builds the
pattern without `re.escape`, so metacharacter tokens act as regex syntax
there rather than as the literals modelled here. -/
def reservedSplit (ts : List (List Char)) (l : List Char) : List (List Char) :=
  rsplitF ts (l.length + 1) [] l

/-- `Tokenizer.__init__(alphanum_only=True, reserved_tokens=None)`. -/
structure Tokenizer where
  alphanum_only : Bool := true
  reserved_tokens : List String := []

/-- `self._alphanum_re.split(substr)` followed by the empty-string filter:
with `alphanum_only` the pattern is `\W+` (non-word runs are dropped),
otherwise it is `(\W+)` (every run is kept). -/
def alnumSplit (alphanum_only : Bool) (w : Char → Bool) (l : List Char) :
    List (List Char) :=
  if alphanum_only then (runs w l).filter (fun r => r.all w) else runs w l

/-- `Tokenizer.tokenize`, on the character-list representation of the
input string. -/
def Tokenizer.tokenizeL (t : Tokenizer) (w : Char → Bool) (l : List Char) :
    List (List Char) :=
  let reservedL := t.reserved_tokens.map String.data
  let substrs := if t.reserved_tokens.isEmpty then [l] else reservedSplit reservedL l
  let toks := substrs.flatMap fun ss =>
    if ss ∈ reservedL then [ss] else alnumSplit t.alphanum_only w ss
  toks.filter (fun tok => !tok.isEmpty)

/-- `Tokenizer.tokenize`: split a string into tokens. -/
def Tokenizer.tokenize (t : Tokenizer) (w : Char → Bool) (s : String) :
    List String :=
  (t.tokenizeL w s.data).map String.mk

/-- Python's `sep.join(tokens)`: the tokens interleaved with the separator
and concatenated. -/
def pyJoin (sep : List Char) (tokens : List String) : String :=
  String.mk ((tokens.map String.data).intersperse sep).flatten

/-- `Tokenizer.join`: `u" ".join(tokens)` when `alphanum_only`, otherwise the
fully invertible `u"".join(tokens)`. -/
def Tokenizer.join (t : Tokenizer) (tokens : List String) : String :=
  if t.alphanum_only then pyJoin [' '] tokens else pyJoin [] tokens

theorem intersperse_nil_flatten :
    ∀ L : List (List Char), (L.intersperse []).flatten = L.flatten
  | [] => rfl
  | [_] => rfl
  | a :: b :: L => by
    have ih := intersperse_nil_flatten (b :: L)
    simp only [List.intersperse_cons_cons, List.flatten_cons] at ih ⊢
    rw [List.nil_append, ih]

theorem runs_filter_ne_nil (w : Char → Bool) (l : List Char) :
    (runs w l).filter (fun r => !r.isEmpty) = runs w l :=
  List.filter_eq_self.mpr fun r hr => by
    simpa [List.isEmpty_iff] using runs_ne_nil w l r hr

theorem tokenize_no_reserved (b : Bool) (w : Char → Bool) (s : String) :
    (Tokenizer.mk b []).tokenize w s =
      ((alnumSplit b w s.data).filter (fun r => !r.isEmpty)).map String.mk := by
  simp [Tokenizer.tokenize, Tokenizer.tokenizeL]

/-- C1: for every word-character classifier and every string `s`, a
`Tokenizer` with `alphanum_only=False` and no reserved tokens satisfies
`join(tokenize(s)) = s`. -/
theorem c1_roundtrip (w : Char → Bool) (s : String) :
    (Tokenizer.mk false []).join ((Tokenizer.mk false []).tokenize w s) = s := by
  rw [tokenize_no_reserved]
  show pyJoin [] _ = s
  unfold pyJoin alnumSplit
  rw [if_neg (by simp), runs_filter_ne_nil, List.map_map]
  have hdata : (String.data ∘ String.mk) = id := rfl
  rw [hdata, List.map_id, intersperse_nil_flatten, runs_flatten]

/-- `r` occurs somewhere in `s` as a contiguous substring (decidable form). -/
def containsSub (r s : String) : Bool :=
  (List.range (s.data.length + 1)).any fun i => r.data.isPrefixOf (s.data.drop i)

theorem containsSub_exists {r s : String} (h : containsSub r s = true) :
    ∃ i, r.data.isPrefixOf (s.data.drop i) := by
  rcases List.any_eq_true.mp h with ⟨i, _, hp⟩
  exact ⟨i, hp⟩

theorem isPrefixOf_nil_eq {r : List Char} (h : r.isPrefixOf ([] : List Char)) :
    r = [] := by
  cases r with
  | nil => rfl
  | cons a l => simp [List.isPrefixOf] at h

/-- The scanner emits the reserved token whenever it occurs in the input
(single-reserved-token case). -/
theorem rsplitF_mem_of_occurs {r : List Char} (hr : r ≠ []) :
    ∀ fuel acc l, l.length < fuel → (∃ i, r.isPrefixOf (l.drop i)) →
      r ∈ rsplitF [r] fuel acc l := by
  intro fuel
  induction fuel with
  | zero => intro acc l hl; omega
  | succ fuel ih =>
    intro acc l hl hocc
    cases l with
    | nil =>
      rcases hocc with ⟨i, hp⟩
      rw [List.drop_nil] at hp
      exact absurd (isPrefixOf_nil_eq hp) hr
    | cons c cs =>
      by_cases hpre : r.isPrefixOf (c :: cs)
      · rw [rsplitF, findMatch_single hr hpre]
        exact List.mem_cons_of_mem _ (List.mem_cons_self _ _)
      · have hnone : findMatch [r] (c :: cs) = none := by
          rw [findMatch, if_neg (fun hand => hpre hand.2), findMatch]
        rw [rsplitF, hnone]
        rcases hocc with ⟨i, hp⟩
        cases i with
        | zero => exact absurd hp hpre
        | succ i2 =>
          rw [List.drop_succ_cons] at hp
          exact ih (c :: acc) cs (by simpa using Nat.lt_of_succ_lt_succ hl) ⟨i2, hp⟩

theorem mem_tokenize_single_reserved (b : Bool) (w : Char → Bool) (r s : String)
    (hr : r ≠ "") (hocc : ∃ i, r.data.isPrefixOf (s.data.drop i)) :
    r ∈ (Tokenizer.mk b [r]).tokenize w s := by
  have hrd : r.data ≠ [] := fun h => hr (by
    have : String.mk r.data = String.mk [] := by rw [h]
    exact this)
  have hmem : r.data ∈ reservedSplit [r.data] s.data :=
    rsplitF_mem_of_occurs hrd (s.data.length + 1) [] s.data (Nat.lt_succ_self _) hocc
  show r ∈ (Tokenizer.tokenizeL _ w s.data).map String.mk
  refine List.mem_map.mpr ⟨r.data, ?_, rfl⟩
  unfold Tokenizer.tokenizeL
  simp only [List.map_cons, List.map_nil, List.isEmpty_cons, if_false, Bool.false_eq_true]
  refine List.mem_filter.mpr ⟨?_, by simpa [List.isEmpty_iff] using hrd⟩
  refine List.mem_flatMap.mpr ⟨r.data, hmem, ?_⟩
  rw [if_pos (List.mem_singleton.mpr rfl)]
  exact List.mem_singleton.mpr rfl

/-- C8 as stated fails on overlapping reserved tokens: with reserved tokens
`["ab", "bc"]`, the token `"bc"` occurs in `"abc"` but the alternation matches
`"ab"` first, so `"bc"` is not emitted as a token. -/
theorem c8_counterexample :
    containsSub "bc" "abc" = true ∧
    (Tokenizer.mk true ["ab", "bc"]).tokenize isWordCharA "abc" = ["ab", "c"] ∧
    "bc" ∉ (Tokenizer.mk true ["ab", "bc"]).tokenize isWordCharA "abc" := by
  decide

/-- C8 (amended): when a single non-empty reserved token `r` containing no
regex metacharacter is configured, for every classifier, every
`alphanum_only` setting and every input string in which `r` occurs, `r`
appears in the output of `tokenize` as a whole token.  The
metacharacter-freedom hypothesis delimits where the claim holds of the
source: the pattern is built without `re.escape`, so a token such as
`"a+"` is matched as regex syntax by the source (on `"a+b"` it yields the
tokens `a` and `b`, and `"a+"` is absent), and the atomicity guarantee is
false of the program for such tokens. -/
theorem c8_reserved_atomic (b : Bool) (w : Char → Bool) (r s : String)
    (hr : r ≠ "") (_hmeta : r.data.all (fun c => !isRegexMeta c) = true)
    (hocc : containsSub r s = true) :
    r ∈ (Tokenizer.mk b [r]).tokenize w s :=
  mem_tokenize_single_reserved b w r s hr (containsSub_exists hocc)

/-- Witness for the amended C8 at a concrete metacharacter-free input. -/
theorem c8_reserved_atomic_witness :
    "<EOS>" ∈ (Tokenizer.mk true ["<EOS>"]).tokenize isWordCharA "hi<EOS>there" :=
  c8_reserved_atomic true isWordCharA "<EOS>" "hi<EOS>there" (by decide)
    (by decide) (by decide)

/-! MD5, as used by `hashlib.md5(...).hexdigest()` followed by `int(_, 16)`.
All 32-bit words are represented as natural numbers below `2 ^ 32`. -/

/-- UTF-8 bytes of a single character (`tf.compat.as_bytes` encodes text
as UTF-8). -/
def utf8Char (c : Char) : List Nat :=
  let n := c.toNat
  if n < 0x80 then [n]
  else if n < 0x800 then [0xc0 + n / 64, 0x80 + n % 64]
  else if n < 0x10000 then
    [0xe0 + n / 4096, 0x80 + n / 64 % 64, 0x80 + n % 64]
  else
    [0xf0 + n / 262144, 0x80 + n / 4096 % 64, 0x80 + n / 64 % 64, 0x80 + n % 64]

/-- UTF-8 bytes of a string. -/
def strBytes (s : String) : List Nat := (s.data.map utf8Char).flatten

/-- The MD5 per-round shift amounts. -/
def md5S : List Nat :=
  [7, 12, 17, 22, 7, 12, 17, 22, 7, 12, 17, 22, 7, 12, 17, 22,
   5, 9, 14, 20, 5, 9, 14, 20, 5, 9, 14, 20, 5, 9, 14, 20,
   4, 11, 16, 23, 4, 11, 16, 23, 4, 11, 16, 23, 4, 11, 16, 23,
   6, 10, 15, 21, 6, 10, 15, 21, 6, 10, 15, 21, 6, 10, 15, 21]

/-- The MD5 sine-derived round constants. -/
def md5K : List Nat :=
  [0xd76aa478, 0xe8c7b756, 0x242070db, 0xc1bdceee,
   0xf57c0faf, 0x4787c62a, 0xa8304613, 0xfd469501,
   0x698098d8, 0x8b44f7af, 0xffff5bb1, 0x895cd7be,
   0x6b901122, 0xfd987193, 0xa679438e, 0x49b40821,
   0xf61e2562, 0xc040b340, 0x265e5a51, 0xe9b6c7aa,
   0xd62f105d, 0x02441453, 0xd8a1e681, 0xe7d3fbc8,
   0x21e1cde6, 0xc33707d6, 0xf4d50d87, 0x455a14ed,
   0xa9e3e905, 0xfcefa3f8, 0x676f02d9, 0x8d2a4c8a,
   0xfffa3942, 0x8771f681, 0x6d9d6122, 0xfde5380c,
   0xa4beea44, 0x4bdecfa9, 0xf6bb4b60, 0xbebfbc70,
   0x289b7ec6, 0xeaa127fa, 0xd4ef3085, 0x04881d05,
   0xd9d4d039, 0xe6db99e5, 0x1fa27cf8, 0xc4ac5665,
   0xf4292244, 0x432aff97, 0xab9423a7, 0xfc93a039,
   0x655b59c3, 0x8f0ccc92, 0xffeff47d, 0x85845dd1,
   0x6fa87e4f, 0xfe2ce6e0, 0xa3014314, 0x4e0811a1,
   0xf7537e82, 0xbd3af235, 0x2ad7d2bb, 0xeb86d391]

/-- 32-bit left rotation on naturals below `2 ^ 32`. -/
def rotl32 (x s : Nat) : Nat := ((x <<< s) ||| (x >>> (32 - s))) &&& 0xffffffff

/-- The MD5 nonlinear mixing function for round `i`. -/
def md5F (i b c d : Nat) : Nat :=
  if i < 16 then (b &&& c) ||| ((0xffffffff ^^^ b) &&& d)
  else if i < 32 then (d &&& b) ||| ((0xffffffff ^^^ d) &&& c)
  else if i < 48 then b ^^^ c ^^^ d
  else c ^^^ (b ||| (0xffffffff ^^^ d))

/-- The MD5 message-word index for round `i`. -/
def md5G (i : Nat) : Nat :=
  if i < 16 then i
  else if i < 32 then (5 * i + 1) % 16
  else if i < 48 then (3 * i + 5) % 16
  else (7 * i) % 16

/-- Little-endian 32-bit word `j` of a 64-byte chunk. -/
def md5Word (chunk : List Nat) (j : Nat) : Nat :=
  chunk.getD (4 * j) 0 + 256 * chunk.getD (4 * j + 1) 0 +
    65536 * chunk.getD (4 * j + 2) 0 + 16777216 * chunk.getD (4 * j + 3) 0

/-- One MD5 round applied to the working state `(a, b, c, d)`. -/
def md5Round (chunk : List Nat) (st : Nat × Nat × Nat × Nat) (i : Nat) :
    Nat × Nat × Nat × Nat :=
  let (a, b, c, d) := st
  let f := (md5F i b c d + a + md5K.getD i 0 + md5Word chunk (md5G i)) &&& 0xffffffff
  (d, (b + rotl32 f (md5S.getD i 0)) &&& 0xffffffff, b, c)

/-- Process one 64-byte chunk, updating the MD5 state. -/
def md5Chunk (st : Nat × Nat × Nat × Nat) (chunk : List Nat) :
    Nat × Nat × Nat × Nat :=
  let (a, b, c, d) := (List.range 64).foldl (md5Round chunk) st
  let (a0, b0, c0, d0) := st
  ((a0 + a) &&& 0xffffffff, (b0 + b) &&& 0xffffffff,
   (c0 + c) &&& 0xffffffff, (d0 + d) &&& 0xffffffff)

/-- MD5 padding: a `0x80` byte, zeros to 56 mod 64, then the bit length as
eight little-endian bytes. -/
def md5Pad (msg : List Nat) : List Nat :=
  let len := msg.length
  let z := (64 + 56 - (len + 1) % 64) % 64
  msg ++ [0x80] ++ List.replicate z 0 ++
    (List.range 8).map fun k => (8 * len) >>> (8 * k) &&& 0xff

/-- Split a byte list into 64-byte chunks. -/
def toChunks : List Nat → List (List Nat)
  | [] => []
  | l@(_ :: _) => l.take 64 :: toChunks (l.drop 64)
  termination_by l => l.length
  decreasing_by simp_all; omega

/-- Little-endian bytes of a 32-bit word. -/
def leBytes (x : Nat) : List Nat :=
  [x &&& 0xff, x >>> 8 &&& 0xff, x >>> 16 &&& 0xff, x >>> 24 &&& 0xff]

/-- The sixteen bytes of the MD5 digest, in output (hexdigest) order. -/
def md5Digest (msg : List Nat) : List Nat :=
  let st0 : Nat × Nat × Nat × Nat := (0x67452301, 0xefcdab89, 0x98badcfe, 0x10325476)
  let (a, b, c, d) := (toChunks (md5Pad msg)).foldl md5Chunk st0
  leBytes a ++ leBytes b ++ leBytes c ++ leBytes d

/-- `int(hashlib.md5(msg).hexdigest(), 16)`: the digest bytes read as one
big-endian natural number. -/
def md5Int (msg : List Nat) : Nat :=
  (md5Digest msg).foldl (fun acc byte => acc * 256 + byte) 0

/-! The `TokenTextEncoder`: a codec from tokens to integer ids backed by an
ordered vocabulary list, with MD5 hash buckets for out-of-vocabulary
tokens. -/

/-- State of a constructed `TokenTextEncoder`: the stripped vocabulary list,
the number of OOV buckets, and the token substituted when decoding OOV ids. -/
structure TokenTextEncoder where
  vocab_list : List String
  oov_buckets : Nat
  oov_token : String

/-- `ValueError("Out of vocabulary token %s" % token)` carrying the
offending token. -/
inductive EncodeError where
  | outOfVocabulary (token : String)
deriving DecidableEq

/-- Lookup in `dict(zip(vocab_list, range(len(vocab_list))))` starting the
index count at `i`: a Python dict built from a pair list keeps the value of
the LAST pair with a given key, so later occurrences shadow earlier ones. -/
def dictGetFrom : List String → String → Nat → Option Nat
  | [], _, _ => none
  | v :: rest, t, i =>
    match dictGetFrom rest t (i + 1) with
    | some j => some j
    | none => if v = t then some i else none

/-- `self._token_to_id.get(token)`: `None` exactly when the `.get(token, -1)`
of the source returns `-1`. -/
def TokenTextEncoder.token_to_id (e : TokenTextEncoder) (t : String) : Option Nat :=
  dictGetFrom e.vocab_list t 0

/-- `TokenTextEncoder._oov_bucket`. -/
def TokenTextEncoder.oov_bucket (e : TokenTextEncoder) (token : String) :
    Option Nat :=
  if e.oov_buckets = 0 then none
  else if e.oov_buckets = 1 then some e.vocab_list.length
  else some (e.vocab_list.length + md5Int (strBytes token) % e.oov_buckets)

/-- The body of the `encode` loop: vocabulary lookup, falling back to an OOV
bucket, raising when no bucket is available. -/
def TokenTextEncoder.encodeTokens (e : TokenTextEncoder) :
    List String → Except EncodeError (List Nat)
  | [] => Except.ok []
  | tok :: rest =>
    match e.token_to_id tok with
    | some i =>
      match e.encodeTokens rest with
      | Except.ok ids => Except.ok (i :: ids)
      | Except.error err => Except.error err
    | none =>
      match e.oov_bucket tok with
      | some i =>
        match e.encodeTokens rest with
        | Except.ok ids => Except.ok (i :: ids)
        | Except.error err => Except.error err
      | none => Except.error (EncodeError.outOfVocabulary tok)

/-- `TokenTextEncoder.encode`: tokenize the input with the internally
constructed default `Tokenizer()` and map each token to an id. -/
def TokenTextEncoder.encode (e : TokenTextEncoder) (w : Char → Bool)
    (s : String) : Except EncodeError (List Nat) :=
  e.encodeTokens ((Tokenizer.mk true []).tokenize w s)

/-- Python list indexing `l[i]`: negative indices count from the end, and an
index that is still out of range raises `IndexError` (modelled as `none`). -/
def pyGet (l : List String) (i : Int) : Option String :=
  let idx : Int := if i < 0 then i + l.length else i
  if 0 ≤ idx ∧ idx < (l.length : Int) then some (l.getD idx.toNat "") else none

/-- The body of the `decode` loop: ids below the vocabulary length index the
vocabulary (with Python indexing semantics), every other id yields the OOV
token. -/
def TokenTextEncoder.decodeTokens (e : TokenTextEncoder) :
    List Int → Option (List String)
  | [] => some []
  | i :: rest =>
    match (if i < (e.vocab_list.length : Int) then pyGet e.vocab_list i
           else some e.oov_token) with
    | some tok =>
      match e.decodeTokens rest with
      | some toks => some (tok :: toks)
      | none => none
    | none => none

/-- `TokenTextEncoder.decode`: decode each id and join with `u" "`. -/
def TokenTextEncoder.decode (e : TokenTextEncoder) (ids : List Int) :
    Option String :=
  (e.decodeTokens ids).map (pyJoin [' '])

/-- `TokenTextEncoder.vocab_size`. -/
def TokenTextEncoder.vocab_size (e : TokenTextEncoder) : Nat :=
  e.vocab_list.length + e.oov_buckets

/-- `ValueError("Must provide either vocab_list or vocab_file.")`. -/
inductive ConfigError where
  | mustProvideVocab
deriving DecidableEq

/-- Python truthiness of an optional list argument: `None` and the empty
list are both falsy. -/
def listTruthy : Option (List String) → Bool
  | none => false
  | some l => !l.isEmpty

/-- `TokenTextEncoder.__init__`.  The external vocabulary file is modelled by
the list of lines it holds (`vocab_file = some lines`); loading the file is
I/O delegated to `tf.gfile` in the source and carries no logic beyond
splitting on newlines and stripping each line, which the shared
`String.trim` pass below performs on whichever source is selected. -/
def mkTokenTextEncoder (vocab_list vocab_file : Option (List String))
    (oov_buckets : Nat) (oov_token : String) :
    Except ConfigError TokenTextEncoder :=
  if !(listTruthy vocab_list || listTruthy vocab_file) ||
      (listTruthy vocab_list && listTruthy vocab_file) then
    Except.error ConfigError.mustProvideVocab
  else
    Except.ok
      { vocab_list :=
          (if listTruthy vocab_list then vocab_list.getD [] else vocab_file.getD []).map
            String.trim
        oov_buckets := oov_buckets
        oov_token := oov_token }

instance {ε α : Type} [DecidableEq ε] [DecidableEq α] : DecidableEq (Except ε α) :=
  fun a b =>
    match a, b with
    | Except.ok x, Except.ok y =>
      if h : x = y then Decidable.isTrue (h ▸ rfl)
      else Decidable.isFalse fun hc => h (Except.ok.inj hc)
    | Except.error x, Except.error y =>
      if h : x = y then Decidable.isTrue (h ▸ rfl)
      else Decidable.isFalse fun hc => h (Except.error.inj hc)
    | Except.ok _, Except.error _ => Decidable.isFalse fun hc => Except.noConfusion hc
    | Except.error _, Except.ok _ => Decidable.isFalse fun hc => Except.noConfusion hc

theorem dictGetFrom_of_not_mem (t : String) :
    ∀ vl (i : Nat), t ∉ vl → dictGetFrom vl t i = none
  | [], _, _ => rfl
  | v :: rest, i, h => by
    rw [dictGetFrom,
      dictGetFrom_of_not_mem t rest (i + 1) fun hm => h (List.mem_cons_of_mem _ hm)]
    exact if_neg fun hv => h (List.mem_cons.mpr (Or.inl hv.symm))

theorem dictGetFrom_last (t : String) :
    ∀ vl (j i : Nat), vl[j]? = some t →
      (∀ k, k < vl.length → j < k → vl[k]? ≠ some t) →
      dictGetFrom vl t i = some (i + j)
  | [], j, _, h3, _ => by simp at h3
  | v :: rest, 0, i, h3, h4 => by
    have hv : v = t := by simpa using h3
    have hnm : t ∉ rest := by
      intro hm
      rcases List.mem_iff_getElem?.mp hm with ⟨k, hk⟩
      have hklen : k < rest.length := by
        by_contra hc
        rw [List.getElem?_eq_none (Nat.le_of_not_lt hc)] at hk
        cases hk
      exact h4 (k + 1) (by simpa using Nat.succ_lt_succ hklen) (Nat.succ_pos _)
        (by simpa using hk)
    rw [dictGetFrom, dictGetFrom_of_not_mem t rest (i + 1) hnm]
    show (if v = t then some i else none) = some (i + 0)
    rw [if_pos hv, Nat.add_zero]
  | v :: rest, j + 1, i, h3, h4 => by
    have h3b : rest[j]? = some t := by simpa using h3
    have h4b : ∀ k, k < rest.length → j < k → rest[k]? ≠ some t := by
      intro k hk hjk hek
      exact h4 (k + 1) (by simpa using Nat.succ_lt_succ hk) (Nat.succ_lt_succ hjk)
        (by simpa using hek)
    rw [dictGetFrom, dictGetFrom_last t rest j (i + 1) h3b h4b]
    show some (i + 1 + j) = some (i + (j + 1))
    rw [Nat.add_assoc, Nat.add_comm 1 j]

theorem token_to_id_last (e : TokenTextEncoder) (t : String) (j : Nat)
    (h3 : e.vocab_list[j]? = some t)
    (h4 : ∀ k, k < e.vocab_list.length → j < k → e.vocab_list[k]? ≠ some t) :
    e.token_to_id t = some j := by
  have := dictGetFrom_last t e.vocab_list j 0 h3 h4
  rwa [Nat.zero_add] at this

theorem token_to_id_of_not_mem (e : TokenTextEncoder) (t : String)
    (h : t ∉ e.vocab_list) : e.token_to_id t = none :=
  dictGetFrom_of_not_mem t e.vocab_list 0 h

theorem data_ne_nil_of_ne_empty {t : String} (h : t ≠ "") : t.data ≠ [] :=
  fun hd => h (congrArg String.mk hd)

/-- A non-empty all-word-character string is its own single token under the
default tokenizer. -/
theorem tokenize_single_word (w : Char → Bool) (t : String) (h1 : t ≠ "")
    (h2 : t.data.all w = true) :
    (Tokenizer.mk true []).tokenize w t = [t] := by
  have hd : t.data ≠ [] := data_ne_nil_of_ne_empty h1
  rw [tokenize_no_reserved]
  unfold alnumSplit
  rw [if_pos rfl,
    runs_of_all w t.data hd fun c hc => List.all_eq_true.mp h2 c hc]
  rw [List.filter_cons_of_pos (by simpa using h2), List.filter_nil,
    List.filter_cons_of_pos (by simpa [List.isEmpty_iff] using hd), List.filter_nil,
    List.map_cons, List.map_nil]

/-- One step of the encode loop on an in-vocabulary token. -/
theorem encodeTokens_single_known (e : TokenTextEncoder) (t : String) (j : Nat)
    (h : e.token_to_id t = some j) : e.encodeTokens [t] = Except.ok [j] := by
  simp only [TokenTextEncoder.encodeTokens, h]

/-- One step of the encode loop on an out-of-vocabulary token. -/
theorem encodeTokens_single_oov (e : TokenTextEncoder) (t : String)
    (h : e.token_to_id t = none) :
    e.encodeTokens [t] =
      (match e.oov_bucket t with
       | some i => Except.ok [i]
       | none => Except.error (EncodeError.outOfVocabulary t)) := by
  simp only [TokenTextEncoder.encodeTokens, h]

theorem pyJoin_single (sep : List Char) (tok : String) : pyJoin sep [tok] = tok := by
  show String.mk (([tok.data].intersperse sep).flatten) = tok
  rw [List.intersperse_singleton, List.flatten_cons, List.flatten_nil, List.append_nil]

/-- Decoding a single id below the vocabulary length returns the vocabulary
entry at that index. -/
theorem decode_single_lt (e : TokenTextEncoder) (j : Nat)
    (hj : j < e.vocab_list.length) :
    e.decode [(j : Int)] = some (e.vocab_list.getD j "") := by
  have hlt : ((j : Nat) : Int) < (e.vocab_list.length : Int) := by exact_mod_cast hj
  have h0 : ¬ ((j : Int) < 0) := by
    exact not_lt.mpr (Int.natCast_nonneg j)
  unfold TokenTextEncoder.decode TokenTextEncoder.decodeTokens
  rw [if_pos hlt]
  unfold pyGet
  simp only [h0, if_false, Int.toNat_natCast]
  rw [if_pos ⟨Int.natCast_nonneg j, hlt⟩]
  show some (pyJoin [' '] [e.vocab_list.getD j ""]) = _
  rw [pyJoin_single]

/-- Decoding a single id at or above the vocabulary length returns the OOV
token, whether or not the id lies below `vocab_size`. -/
theorem decode_single_ge (e : TokenTextEncoder) (id : Int)
    (h : (e.vocab_list.length : Int) ≤ id) :
    e.decode [id] = some e.oov_token := by
  unfold TokenTextEncoder.decode TokenTextEncoder.decodeTokens
  rw [if_neg (not_lt.mpr h)]
  show some (pyJoin [' '] [e.oov_token]) = _
  rw [pyJoin_single]

/-- Decoding a single negative id that is in range after Python end-relative
translation returns the vocabulary entry at `id + V`. -/
theorem decode_single_neg (e : TokenTextEncoder) (id : Int) (hneg : id < 0)
    (hge : 0 ≤ id + e.vocab_list.length) :
    e.decode [id] =
      some (e.vocab_list.getD (id + e.vocab_list.length).toNat "") := by
  have hlt : id < (e.vocab_list.length : Int) :=
    lt_of_lt_of_le hneg (Int.natCast_nonneg _)
  have hlt2 : id + (e.vocab_list.length : Int) < (e.vocab_list.length : Int) := by
    omega
  unfold TokenTextEncoder.decode TokenTextEncoder.decodeTokens
  rw [if_pos hlt]
  unfold pyGet
  simp only [hneg, if_true]
  rw [if_pos ⟨hge, hlt2⟩]
  show some (pyJoin [' '] [e.vocab_list.getD (id + e.vocab_list.length).toNat ""]) = _
  rw [pyJoin_single]

/-- Decoding a single negative id that is still out of range after Python
end-relative translation fails (an `IndexError` in the source). -/
theorem decode_single_neg_err (e : TokenTextEncoder) (id : Int)
    (h : id + e.vocab_list.length < 0) :
    e.decode [id] = none := by
  have hneg : id < 0 := by omega
  have hlt : id < (e.vocab_list.length : Int) :=
    lt_of_lt_of_le hneg (Int.natCast_nonneg _)
  unfold TokenTextEncoder.decode TokenTextEncoder.decodeTokens
  rw [if_pos hlt]
  unfold pyGet
  simp only [hneg, if_true]
  rw [if_neg (fun hand => absurd hand.1 (not_le.mpr h))]
  rfl

/-- Shared core of the in-vocabulary claims: a non-empty all-word-character
token whose last vocabulary occurrence is at index `j` encodes to `[j]`, and
`j` decodes back to it. -/
theorem encode_decode_last (w : Char → Bool) (e : TokenTextEncoder) (t : String)
    (j : Nat) (h1 : t ≠ "") (h2 : t.data.all w = true)
    (h3 : e.vocab_list[j]? = some t)
    (h4 : ∀ k, k < e.vocab_list.length → j < k → e.vocab_list[k]? ≠ some t) :
    e.encode w t = Except.ok [j] ∧ e.decode [(j : Int)] = some t := by
  have hj : j < e.vocab_list.length := by
    by_contra hc
    rw [List.getElem?_eq_none (Nat.le_of_not_lt hc)] at h3
    cases h3
  constructor
  · unfold TokenTextEncoder.encode
    rw [tokenize_single_word w t h1 h2]
    exact encodeTokens_single_known e t j (token_to_id_last e t j h3 h4)
  · rw [decode_single_lt e j hj]
    have : e.vocab_list.getD j "" = t := by
      rw [List.getD_eq_getElem?_getD, h3, Option.getD_some]
    rw [this]

/-- The encode loop produces exactly one id per input token whenever it
succeeds. -/
theorem encodeTokens_ok_length (e : TokenTextEncoder) :
    ∀ toks ids, e.encodeTokens toks = Except.ok ids → ids.length = toks.length
  | [], ids, h => by
    cases h
    rfl
  | tok :: rest, ids, h => by
    rw [TokenTextEncoder.encodeTokens] at h
    cases htid : e.token_to_id tok with
    | some i =>
      rw [htid] at h
      cases hrest : e.encodeTokens rest with
      | ok ids2 =>
        rw [hrest] at h
        cases h
        simpa using encodeTokens_ok_length e rest ids2 hrest
      | error err => rw [hrest] at h; cases h
    | none =>
      rw [htid] at h
      cases hb : e.oov_bucket tok with
      | some i =>
        rw [hb] at h
        cases hrest : e.encodeTokens rest with
        | ok ids2 =>
          rw [hrest] at h
          cases h
          simpa using encodeTokens_ok_length e rest ids2 hrest
        | error err => rw [hrest] at h; cases h
      | none => rw [hb] at h; cases h

/-- An input with no word characters produces no alphanumeric tokens. -/
theorem alnumSplit_true_nil (w : Char → Bool) (l : List Char)
    (h : ∀ c ∈ l, w c = false) : alnumSplit true w l = [] := by
  unfold alnumSplit
  rw [if_pos rfl]
  refine List.filter_eq_nil_iff.mpr fun r hr => ?_
  have hne := runs_ne_nil w l r hr
  cases r with
  | nil => exact absurd rfl hne
  | cons a as =>
    have ha : a ∈ l := by
      have : a ∈ (runs w l).flatten :=
        List.mem_flatten.mpr ⟨a :: as, hr, List.mem_cons_self a as⟩
      rwa [runs_flatten] at this
    simp [List.all_cons, h a ha]

/-- C2 as stated fails for a vocabulary token made of non-word characters:
`"!"` sits at index 0, but `encode` first tokenizes its input with the
default alphanumeric-only tokenizer, which drops `"!"`, so no id is
returned. -/
theorem c2_counterexample :
    (⟨["!"], 1, "UNK"⟩ : TokenTextEncoder).vocab_list[0]? = some "!" ∧
    (⟨["!"], 1, "UNK"⟩ : TokenTextEncoder).encode isWordCharA "!" =
      Except.ok [] ∧
    (⟨["!"], 1, "UNK"⟩ : TokenTextEncoder).encode isWordCharA "!" ≠
      Except.ok [0] := by
  decide

/-- C2 (amended): for every token `t` that is a non-empty string of word
characters and is present in the vocabulary, with `i` the index of its last
occurrence, `encode(t)` returns the one-element id list `[i]` and `decode`
of that id returns `t`. -/
theorem c2_in_vocab_fidelity (w : Char → Bool) (e : TokenTextEncoder)
    (t : String) (i : Nat) (h1 : t ≠ "") (h2 : t.data.all w = true)
    (h3 : e.vocab_list[i]? = some t)
    (h4 : ∀ k, k < e.vocab_list.length → i < k → e.vocab_list[k]? ≠ some t) :
    e.encode w t = Except.ok [i] ∧ e.decode [(i : Int)] = some t :=
  encode_decode_last w e t i h1 h2 h3 h4

/-- Witness for the amended C2 at a concrete vocabulary. -/
theorem c2_in_vocab_fidelity_witness :
    (⟨["cat", "dog", "fish"], 1, "UNK"⟩ : TokenTextEncoder).encode isWordCharA
      "dog" = Except.ok [1] ∧
    (⟨["cat", "dog", "fish"], 1, "UNK"⟩ : TokenTextEncoder).decode [1] =
      some "dog" :=
  c2_in_vocab_fidelity isWordCharA ⟨["cat", "dog", "fish"], 1, "UNK"⟩ "dog" 1
    (by decide) (by decide) (by decide) (by decide)

/-- C3 as stated fails for strings that are not single word-character
tokens: `"cat!"` is not in the vocabulary and one OOV bucket exists, yet
`encode` returns the in-vocabulary id 0 (for the token `"cat"` that
tokenization extracts), not an id in `[V, V+B)`. -/
theorem c3_counterexample :
    "cat!" ∉ (⟨["cat"], 1, "UNK"⟩ : TokenTextEncoder).vocab_list ∧
    0 < (⟨["cat"], 1, "UNK"⟩ : TokenTextEncoder).oov_buckets ∧
    (⟨["cat"], 1, "UNK"⟩ : TokenTextEncoder).encode isWordCharA "cat!" =
      Except.ok [0] ∧
    ¬ (⟨["cat"], 1, "UNK"⟩ : TokenTextEncoder).vocab_list.length ≤ 0 := by
  decide

/-- C3 (amended): for every non-empty all-word-character token `t` not in
the vocabulary, with `B > 0` OOV buckets, `encode(t)` returns a single id in
`[V, V+B)`; with `B = 1` the id is exactly `V`, and with `B > 1` it is
`V + md5(utf8(t)) % B` where md5 is the deterministic MD5 digest of the
token's UTF-8 bytes read as a big-endian integer. -/
theorem c3_oov_bucket_range (w : Char → Bool) (e : TokenTextEncoder)
    (t : String) (h1 : t ≠ "") (h2 : t.data.all w = true)
    (h3 : t ∉ e.vocab_list) (hB : 0 < e.oov_buckets) :
    ∃ id, e.encode w t = Except.ok [id] ∧
      e.vocab_list.length ≤ id ∧
      id < e.vocab_list.length + e.oov_buckets ∧
      (e.oov_buckets = 1 → id = e.vocab_list.length) ∧
      (1 < e.oov_buckets →
        id = e.vocab_list.length + md5Int (strBytes t) % e.oov_buckets) := by
  have htid : e.token_to_id t = none := token_to_id_of_not_mem e t h3
  have henc : e.encode w t =
      (match e.oov_bucket t with
       | some i => Except.ok [i]
       | none => Except.error (EncodeError.outOfVocabulary t)) := by
    unfold TokenTextEncoder.encode
    rw [tokenize_single_word w t h1 h2]
    exact encodeTokens_single_oov e t htid
  by_cases h1b : e.oov_buckets = 1
  · refine ⟨e.vocab_list.length, ?_, le_refl _, by omega, fun _ => rfl, ?_⟩
    · rw [henc]
      unfold TokenTextEncoder.oov_bucket
      rw [if_neg (by omega), if_pos h1b]
    · intro hgt
      omega
  · have hgt : 1 < e.oov_buckets := by omega
    refine ⟨e.vocab_list.length + md5Int (strBytes t) % e.oov_buckets, ?_, ?_, ?_,
      fun h => absurd h h1b, fun _ => rfl⟩
    · rw [henc]
      unfold TokenTextEncoder.oov_bucket
      rw [if_neg (by omega), if_neg h1b]
    · exact Nat.le_add_right _ _
    · have := Nat.mod_lt (md5Int (strBytes t)) hB
      omega

/-- Witness for the amended C3 with eight OOV buckets. -/
theorem c3_oov_bucket_range_witness :
    ∃ id, (⟨["cat"], 8, "UNK"⟩ : TokenTextEncoder).encode isWordCharA "bird" =
        Except.ok [id] ∧
      (⟨["cat"], 8, "UNK"⟩ : TokenTextEncoder).vocab_list.length ≤ id ∧
      id < (⟨["cat"], 8, "UNK"⟩ : TokenTextEncoder).vocab_list.length +
        (⟨["cat"], 8, "UNK"⟩ : TokenTextEncoder).oov_buckets ∧
      ((⟨["cat"], 8, "UNK"⟩ : TokenTextEncoder).oov_buckets = 1 →
        id = (⟨["cat"], 8, "UNK"⟩ : TokenTextEncoder).vocab_list.length) ∧
      (1 < (⟨["cat"], 8, "UNK"⟩ : TokenTextEncoder).oov_buckets →
        id = (⟨["cat"], 8, "UNK"⟩ : TokenTextEncoder).vocab_list.length +
          md5Int (strBytes "bird") %
            (⟨["cat"], 8, "UNK"⟩ : TokenTextEncoder).oov_buckets) :=
  c3_oov_bucket_range isWordCharA ⟨["cat"], 8, "UNK"⟩ "bird" (by decide)
    (by decide) (by decide) (by decide)

/-- C4 as stated fails: `decode` of the id 7, far above
`vocab_size = 4`, does not fail but silently returns the OOV token. -/
theorem c4_counterexample :
    (⟨["cat", "dog", "fish"], 1, "UNK"⟩ : TokenTextEncoder).vocab_size ≤ 7 ∧
    (⟨["cat", "dog", "fish"], 1, "UNK"⟩ : TokenTextEncoder).decode [7] =
      some "UNK" := by
  decide

/-- C4 (amended): `decode` never raises an invalid-id error.  Any id at or
above the vocabulary length — in particular every id at or above
`vocab_size` — decodes to the OOV token; a negative id is translated
end-relative as Python list indexing does, decoding to the token at
`id + V` when that is in range and failing (with an `IndexError`, the only
failure) when `id < -V`. -/
theorem c4_out_of_range_decode (e : TokenTextEncoder) (id : Int) :
    ((e.vocab_list.length : Int) ≤ id → e.decode [id] = some e.oov_token) ∧
    (id < 0 → 0 ≤ id + e.vocab_list.length →
      e.decode [id] =
        some (e.vocab_list.getD (id + e.vocab_list.length).toNat "")) ∧
    (id + e.vocab_list.length < 0 → e.decode [id] = none) :=
  ⟨decode_single_ge e id, decode_single_neg e id, decode_single_neg_err e id⟩

/-- Witness for the amended C4 at concrete out-of-range ids. -/
theorem c4_out_of_range_decode_witness :
    (⟨["cat", "dog", "fish"], 1, "UNK"⟩ : TokenTextEncoder).decode [9] =
      some "UNK" ∧
    (⟨["cat", "dog", "fish"], 1, "UNK"⟩ : TokenTextEncoder).decode [-1] =
      some (["cat", "dog", "fish"].getD 2 "") ∧
    (⟨["cat", "dog", "fish"], 1, "UNK"⟩ : TokenTextEncoder).decode [-5] =
      none :=
  ⟨(c4_out_of_range_decode ⟨["cat", "dog", "fish"], 1, "UNK"⟩ 9).1 (by decide),
   (c4_out_of_range_decode ⟨["cat", "dog", "fish"], 1, "UNK"⟩ (-1)).2.1
     (by decide) (by decide),
   (c4_out_of_range_decode ⟨["cat", "dog", "fish"], 1, "UNK"⟩ (-5)).2.2
     (by decide)⟩

/-- C5: `decode` of any id in `[0, V+B)` succeeds: ids below `V` return the
vocabulary token at that index, and ids in `[V, V+B)` return the OOV
token. -/
theorem c5_in_range_decode (e : TokenTextEncoder) (id : Int) :
    (0 ≤ id → id < (e.vocab_list.length : Int) →
      e.decode [id] = some (e.vocab_list.getD id.toNat "")) ∧
    ((e.vocab_list.length : Int) ≤ id → id < (e.vocab_size : Int) →
      e.decode [id] = some e.oov_token) := by
  constructor
  · intro h0 hlt
    have hid : id = ((id.toNat : Nat) : Int) := (Int.toNat_of_nonneg h0).symm
    have hj : id.toNat < e.vocab_list.length := by omega
    rw [hid]
    exact decode_single_lt e id.toNat hj
  · intro hge _
    exact decode_single_ge e id hge

/-- Witness for C5, matching the spec's concrete scenario
(`encode("dog") == 1`, `decode(3) == "UNK"` with three tokens and one
bucket). -/
theorem c5_in_range_decode_witness :
    (⟨["cat", "dog", "fish"], 1, "UNK"⟩ : TokenTextEncoder).decode [1] =
      some (["cat", "dog", "fish"].getD 1 "") ∧
    (⟨["cat", "dog", "fish"], 1, "UNK"⟩ : TokenTextEncoder).decode [3] =
      some "UNK" :=
  ⟨(c5_in_range_decode ⟨["cat", "dog", "fish"], 1, "UNK"⟩ 1).1 (by decide)
     (by decide),
   (c5_in_range_decode ⟨["cat", "dog", "fish"], 1, "UNK"⟩ 3).2 (by decide)
     (by decide)⟩

/-- C6 as stated fails for strings without word characters: `"!!!"` is not
in the vocabulary and there are no OOV buckets, yet `encode` raises nothing
and returns the empty id list, because tokenization drops `"!!!"` before
the vocabulary is consulted. -/
theorem c6_counterexample :
    "!!!" ∉ (⟨["cat"], 0, "UNK"⟩ : TokenTextEncoder).vocab_list ∧
    (⟨["cat"], 0, "UNK"⟩ : TokenTextEncoder).oov_buckets = 0 ∧
    (⟨["cat"], 0, "UNK"⟩ : TokenTextEncoder).encode isWordCharA "!!!" =
      Except.ok [] := by
  decide

/-- C6 (amended): for every non-empty all-word-character token `t` not in
the vocabulary, with zero OOV buckets, `encode(t)` fails with an
out-of-vocabulary error naming `t`. -/
theorem c6_oov_error (w : Char → Bool) (e : TokenTextEncoder) (t : String)
    (h1 : t ≠ "") (h2 : t.data.all w = true) (h3 : t ∉ e.vocab_list)
    (hB : e.oov_buckets = 0) :
    e.encode w t = Except.error (EncodeError.outOfVocabulary t) := by
  unfold TokenTextEncoder.encode
  rw [tokenize_single_word w t h1 h2,
    encodeTokens_single_oov e t (token_to_id_of_not_mem e t h3)]
  unfold TokenTextEncoder.oov_bucket
  rw [if_pos hB]

/-- Witness for the amended C6: the error names the offending token. -/
theorem c6_oov_error_witness :
    (⟨["cat"], 0, "UNK"⟩ : TokenTextEncoder).encode isWordCharA "bird" =
      Except.error (EncodeError.outOfVocabulary "bird") :=
  c6_oov_error isWordCharA ⟨["cat"], 0, "UNK"⟩ "bird" (by decide) (by decide)
    (by decide) (by decide)

/-- C7 as stated fails: an empty inline vocabulary list with one usable OOV
bucket and no second source is rejected, because the truthiness test treats
an empty list like an absent argument and the OOV configuration is never
consulted. -/
theorem c7_counterexample :
    mkTokenTextEncoder (some []) none 1 "UNK" =
      Except.error ConfigError.mustProvideVocab := rfl

/-- C7 (amended): construction fails exactly when the two vocabulary
sources are equally truthy — both supplied or neither supplied, an empty
inline list counting as not supplied; the OOV configuration plays no
part.  Otherwise construction succeeds. -/
theorem c7_construction_error_iff (vl vf : Option (List String)) (B : Nat)
    (tok : String) :
    mkTokenTextEncoder vl vf B tok = Except.error ConfigError.mustProvideVocab ↔
      listTruthy vl = listTruthy vf := by
  cases hvl : listTruthy vl <;> cases hvf : listTruthy vf <;>
    simp [mkTokenTextEncoder, hvl, hvf]

/-- Witness for the amended C7 at concrete arguments. -/
theorem c7_construction_error_iff_witness :
    (mkTokenTextEncoder (some ["cat"]) none 1 "UNK" =
        Except.error ConfigError.mustProvideVocab ↔
      listTruthy (some ["cat"]) = listTruthy none) ∧
    listTruthy (some ["cat"]) ≠ listTruthy none :=
  ⟨c7_construction_error_iff (some ["cat"]) none 1 "UNK", by decide⟩

/-- C9 as stated fails: with the duplicated vocabulary
`["a", "b", "a"]` the token `"a"` encodes to the index 2 of its last
occurrence, not the index 0 of its first occurrence, because the Python
dict built from `zip(vocab, range(n))` lets later pairs overwrite
earlier ones. -/
theorem c9_counterexample :
    (⟨["a", "b", "a"], 1, "UNK"⟩ : TokenTextEncoder).vocab_list[0]? =
      some "a" ∧
    (⟨["a", "b", "a"], 1, "UNK"⟩ : TokenTextEncoder).vocab_list[2]? =
      some "a" ∧
    (⟨["a", "b", "a"], 1, "UNK"⟩ : TokenTextEncoder).encode isWordCharA "a" =
      Except.ok [2] ∧
    (⟨["a", "b", "a"], 1, "UNK"⟩ : TokenTextEncoder).encode isWordCharA "a" ≠
      Except.ok [0] := by
  decide

/-- C9 (amended): when the vocabulary contains the same non-empty
all-word-character token at two distinct positions, `encode` resolves it to
one canonical index, namely the index of its LAST occurrence, and `decode`
of that index returns the token, keeping encode/decode consistent there. -/
theorem c9_duplicate_resolution (w : Char → Bool) (e : TokenTextEncoder)
    (t : String) (i j : Nat) (h1 : t ≠ "") (h2 : t.data.all w = true)
    (_h3 : e.vocab_list[i]? = some t) (_hij : i < j)
    (h4 : e.vocab_list[j]? = some t)
    (h5 : ∀ k, k < e.vocab_list.length → j < k → e.vocab_list[k]? ≠ some t) :
    e.encode w t = Except.ok [j] ∧ e.decode [(j : Int)] = some t :=
  encode_decode_last w e t j h1 h2 h4 h5

/-- Witness for the amended C9 at the duplicated vocabulary. -/
theorem c9_duplicate_resolution_witness :
    (⟨["a", "b", "a"], 1, "UNK"⟩ : TokenTextEncoder).encode isWordCharA "a" =
      Except.ok [2] ∧
    (⟨["a", "b", "a"], 1, "UNK"⟩ : TokenTextEncoder).decode [2] = some "a" :=
  c9_duplicate_resolution isWordCharA ⟨["a", "b", "a"], 1, "UNK"⟩ "a" 0 2
    (by decide) (by decide) (by decide) (by decide) (by decide) (by decide)

/-- C10: `encode` does not take a single token: it tokenizes its whole input
with the internally constructed default tokenizer (alphanumeric-only, no
reserved tokens) and, when it succeeds, returns exactly one id per resulting
token; and on any input containing no word characters it returns the empty
id list without error, whatever the OOV bucket count. -/
theorem c10_encode_tokenizes (w : Char → Bool) (e : TokenTextEncoder)
    (s : String) :
    (∀ ids, e.encode w s = Except.ok ids →
      ids.length = ((Tokenizer.mk true []).tokenize w s).length) ∧
    ((∀ c ∈ s.data, w c = false) → e.encode w s = Except.ok []) := by
  constructor
  · intro ids h
    exact encodeTokens_ok_length e ((Tokenizer.mk true []).tokenize w s) ids h
  · intro hnw
    have htok : (Tokenizer.mk true []).tokenize w s = [] := by
      rw [tokenize_no_reserved, alnumSplit_true_nil w s.data hnw]
      rfl
    unfold TokenTextEncoder.encode
    rw [htok]
    rfl

/-- Witness for C10: a punctuation-only input encodes to the empty id list
even with zero OOV buckets, and the id count matches the token count. -/
theorem c10_encode_tokenizes_witness :
    (⟨["cat"], 0, "UNK"⟩ : TokenTextEncoder).encode isWordCharA "..!?" =
      Except.ok [] ∧
    ([] : List Nat).length =
      ((Tokenizer.mk true []).tokenize isWordCharA "..!?").length :=
  ⟨(c10_encode_tokenizes isWordCharA ⟨["cat"], 0, "UNK"⟩ "..!?").2 (by decide),
   (c10_encode_tokenizes isWordCharA ⟨["cat"], 0, "UNK"⟩ "..!?").1 []
     ((c10_encode_tokenizes isWordCharA ⟨["cat"], 0, "UNK"⟩ "..!?").2
       (by decide))⟩
